import Mathlib

/-!
Verification of the `daytime` Go package (src/daytime.go).

A `Daytime` is a `uint32` counting seconds since midnight; valid values lie in
`[0, 86400]`, where `86400` is the `EndOfDay` sentinel (24:00:00).  We embed the
raw `uint32` as `Nat` (the conversion `int(d)` used by the code is exact for
every representable value) and Go `int` as `Int`.  Go integer division and
remainder truncate toward zero, which is `Int.tdiv` / `Int.tmod`.

Errors: the Go package wraps a sentinel root cause (compared with `errors.Is`)
in an `*Error` carrying the operation name.  We model the root-cause taxonomy
as an inductive type and the wrapper as a structure holding the operation name
and the root cause; the `value any` context field is not modelled (no claim
concerns it).  The double-wrap guard in `errorf` never fires on the modelled
paths: `Parse` builds a fresh error from the `ErrInvalidFormat` sentinel
rather than rewrapping the inner failure.
-/

namespace Daytime

inductive RootErr where
  | DivisionByZero
  | InvalidTimeComponent
  | InvalidFormat
  | ValueOutOfRange
  | InvalidModulus
  | EndOfDayExceeded
deriving DecidableEq, Repr

/-- Wrapped error: operation name plus root cause (`Error.op` and the sentinel
reachable through `Unwrap`, i.e. what `errors.Is` matches against). -/
structure DtError where
  op : String
  root : RootErr
deriving DecidableEq, Repr

abbrev secondsInDay : Nat := 86400

abbrev StartOfDay : Nat := 0

abbrev EndOfDay : Nat := 86400

/-- `Daytime.Valid`: `d <= EndOfDay`. -/
def Valid (d : Nat) : Bool := d ≤ 86400

/-- `Daytime.Before`: `EndOfDay` is after everything except itself, otherwise
raw comparison. -/
def Before (d other : Nat) : Bool :=
  if d = 86400 then false
  else if other = 86400 then true
  else d < other

/-- `Daytime.After`. -/
def After (d other : Nat) : Bool := Before other d

/-- `Daytime.Between` (the `end` parameter is renamed `stop`, `end` being a
reserved word). -/
def Between (d start stop : Nat) : Bool :=
  if !(Valid d) || !(Valid start) || !(Valid stop) then false
  else if start = stop then d == start
  else if Before start stop then !(Before d start) && !(After d stop)
  else !(Before d start) || !(After d stop)

/-- `Daytime.Add`.  Go reassigns `days`/`remainder` in place when the
truncated remainder is negative; the reassigned values are `days2`,
`remainder2` here. -/
def Add (d : Nat) (seconds : Int) : Nat × Int :=
  if !(Valid d) then (d, 0)
  else
    let baseValue : Int := (d : Int)
    let total := baseValue + seconds
    let days := total.tdiv 86400
    let remainder := total.tmod 86400
    let days2 := if remainder < 0 then days - 1 else days
    let remainder2 := if remainder < 0 then remainder + 86400 else remainder
    if total = 86400 then (EndOfDay, 0)
    else if remainder2 = 0 then (StartOfDay, days2)
    else (remainder2.toNat, days2)

/-- `Daytime.Sub`. -/
def Sub (d : Nat) (seconds : Int) : Nat × Int := Add d (-seconds)

/-- `Daytime.Mul`. -/
def Mul (d : Nat) (factor : Int) : Nat × Int :=
  if !(Valid d) then (d, 0)
  else
    let baseValue : Int := (d : Int)
    let total := baseValue * factor
    let days := total.tdiv 86400
    let remainder := total.tmod 86400
    let days2 := if remainder < 0 then days - 1 else days
    let remainder2 := if remainder < 0 then remainder + 86400 else remainder
    if total = 86400 then (EndOfDay, 0)
    else if remainder2 = 0 then (StartOfDay, days2)
    else (remainder2.toNat, days2)

/-- `Daytime.Div`: success carries `(quotient, remainder)`; the Go failure
returns `(0, 0, err)`, modelled by the `error` constructor. -/
def Div (d : Nat) (divisor : Int) : Except DtError (Nat × Int) :=
  if divisor = 0 then .error ⟨"Div", .DivisionByZero⟩
  else if !(Valid d) then .ok (d, 0)
  else
    let value : Int := if d = 86400 then 86400 else (d : Int)
    let quotient := value.tdiv divisor
    let remainder := value.tmod divisor
    if quotient < 0 ∨ quotient > 86400 then .error ⟨"Div", .ValueOutOfRange⟩
    else .ok (quotient.toNat, remainder)

/-- `Daytime.Mod`. -/
def Mod (d : Nat) (modulus : Int) : Except DtError Nat :=
  if modulus ≤ 0 then .error ⟨"Mod", .InvalidModulus⟩
  else if !(Valid d) then .ok d
  else
    let value : Int := if d = 86400 then 86400 else (d : Int)
    let result := value.tmod modulus
    let result2 := if result < 0 then result + modulus else result
    .ok result2.toNat

/-- `Daytime.Diff`: returns `(seconds, days)`.  The two `EndOfDay`
substitutions are kept although the raw value of `EndOfDay` is already
`86400`. -/
def Diff (d other : Nat) : Int × Int :=
  if !(Valid d) || !(Valid other) then (0, 0)
  else
    let baseSeconds : Int := (d : Int)
    let otherSeconds : Int := (other : Int)
    let baseSeconds2 := if d = 86400 ∧ d ≠ other then (86400 : Int) else baseSeconds
    let otherSeconds2 := if other = 86400 ∧ d ≠ other then (86400 : Int) else otherSeconds
    let diff := baseSeconds2 - otherSeconds2
    let days := diff.tdiv 86400
    let seconds := diff.tmod 86400
    if seconds < 0 then (seconds + 86400, days - 1) else (seconds, days)

/-- `Daytime.Clock`: hour, minute, second components. -/
def Clock (d : Nat) : Nat × Nat × Nat :=
  if d = 86400 then (24, 0, 0) else (d / 3600, d % 3600 / 60, d % 60)

instance {ε α : Type} [DecidableEq ε] [DecidableEq α] : DecidableEq (Except ε α)
  | .error e, .error f =>
    if h : e = f then .isTrue (by rw [h]) else .isFalse (by simp [h])
  | .error _, .ok _ => .isFalse (by simp)
  | .ok _, .error _ => .isFalse (by simp)
  | .ok a, .ok b =>
    if h : a = b then .isTrue (by rw [h]) else .isFalse (by simp [h])

-- ## Parsing (strconv.Atoi and fmt.Sscanf with format "%d:%d:%d")

/-- UTF-8 byte length: the Go built-in `len` on a string. -/
def utf8Len : List Char → Nat
  | [] => 0
  | c :: cs => c.utf8Size + utf8Len cs

/-- Leading-space skipping done by the `%d` verb of the `fmt` scanner
(horizontal whitespace; a newline in place of a number makes the scan fail
and is therefore not skipped here). -/
def skipSpaces : List Char → List Char
  | [] => []
  | c :: cs => if c = ' ' ∨ c = '\t' then skipSpaces cs else c :: cs

/-- Consume a maximal run of decimal digits, accumulating their value. -/
def takeDigits (acc : Nat) : List Char → Nat × List Char
  | [] => (acc, [])
  | c :: cs =>
    if c.isDigit then takeDigits (acc * 10 + (c.toNat - 48)) cs else (acc, c :: cs)

/-- The `%d` verb of `fmt.Sscanf`: skip spaces, then an optionally signed
run of decimal digits; fails when no digit follows. -/
def scanInt (cs : List Char) : Option (Int × List Char) :=
  match skipSpaces cs with
  | [] => none
  | c :: rest =>
    if c = '-' then
      match rest with
      | [] => none
      | c2 :: _ =>
        if c2.isDigit then
          let p := takeDigits 0 rest
          some (-(p.1 : Int), p.2)
        else none
    else if c = '+' then
      match rest with
      | [] => none
      | c2 :: _ =>
        if c2.isDigit then
          let p := takeDigits 0 rest
          some ((p.1 : Int), p.2)
        else none
    else if c.isDigit then
      let p := takeDigits 0 (c :: rest)
      some ((p.1 : Int), p.2)
    else none

/-- A literal character of the scan format must match the input exactly. -/
def expectChar (c : Char) : List Char → Option (List Char)
  | [] => none
  | x :: rest => if x = c then some rest else none

/-- `fmt.Sscanf(s, "%d:%d:%d", &hour, &minute, &second)`: three scanned
integers separated by literal colons; input remaining after the third number
is ignored, exactly as `Sscanf` ignores unconsumed input. -/
def scanHMS (cs : List Char) : Option (Int × Int × Int) :=
  match scanInt cs with
  | none => none
  | some (h, r1) =>
    match expectChar ':' r1 with
    | none => none
    | some r2 =>
      match scanInt r2 with
      | none => none
      | some (m, r3) =>
        match expectChar ':' r3 with
        | none => none
        | some r4 =>
          match scanInt r4 with
          | none => none
          | some (s, _) => some (h, m, s)

/-- `parseTimeString`: length gate (Go `len`, i.e. bytes), then the
`%d:%d:%d` scan, then the component checks shared with `New`. -/
def parseTimeString (cs : List Char) : Except DtError Int :=
  if utf8Len cs ≠ 8 then .error ⟨"parseTimeString", .InvalidFormat⟩
  else
    match scanHMS cs with
    | none => .error ⟨"parseTimeString", .InvalidFormat⟩
    | some (hour, minute, second) =>
      if hour < 0 ∨ hour > 24 ∨ minute < 0 ∨ minute > 59 ∨ second < 0 ∨ second > 59 then
        .error ⟨"parseTimeString", .InvalidTimeComponent⟩
      else if hour = 24 ∧ (minute ≠ 0 ∨ second ≠ 0) then
        .error ⟨"parseTimeString", .EndOfDayExceeded⟩
      else
        let total := hour * 3600 + minute * 60 + second
        if total > 86400 then .error ⟨"parseTimeString", .ValueOutOfRange⟩
        else .ok total

/-- All-digit run for `strconv.Atoi`: the whole remaining input must be
decimal digits, at least one. -/
def atoiDigits (acc : Nat) : List Char → Option Nat
  | [] => some acc
  | c :: cs => if c.isDigit then atoiDigits (acc * 10 + (c.toNat - 48)) cs else none

/-- `strconv.Atoi`: optional sign, then only digits; values outside the
signed 64-bit range make `Atoi` fail. -/
def atoi (cs : List Char) : Option Int :=
  match cs with
  | [] => none
  | c :: rest =>
    if c = '-' then
      match rest with
      | [] => none
      | _ :: _ =>
        match atoiDigits 0 rest with
        | none => none
        | some n => if (n : Int) ≤ 2 ^ 63 then some (-(n : Int)) else none
    else if c = '+' then
      match rest with
      | [] => none
      | _ :: _ =>
        match atoiDigits 0 rest with
        | none => none
        | some n => if (n : Int) < 2 ^ 63 then some ((n : Int)) else none
    else
      match atoiDigits 0 cs with
      | none => none
      | some n => if (n : Int) < 2 ^ 63 then some ((n : Int)) else none

/-- `parseSeconds`: `Atoi`, then the `[0, 86400]` range check. -/
def parseSeconds (cs : List Char) : Except DtError Int :=
  match atoi cs with
  | none => .error ⟨"parseSeconds", .InvalidFormat⟩
  | some sec =>
    if sec < 0 ∨ sec > 86400 then .error ⟨"parseSeconds", .ValueOutOfRange⟩
    else .ok sec

/-- `Parse`: empty string fails, then integer seconds, then `HH:MM:SS`; both
inner failures are discarded and replaced by a fresh `InvalidFormat` error. -/
def Parse (s : String) : Except DtError Nat :=
  if s = "" then .error ⟨"Parse", .InvalidFormat⟩
  else
    match parseSeconds s.data with
    | .ok sec => .ok sec.toNat
    | .error _ =>
      match parseTimeString s.data with
      | .ok sec => .ok sec.toNat
      | .error _ => .error ⟨"Parse", .InvalidFormat⟩

-- ## Printing (fmt.Sprintf with format "%02d:%02d:%02d")

/-- `%02d`: zero-padded to width two (the two-digit form for `n < 100`; a
wider number prints all its digits). -/
def pad2 (n : Nat) : List Char :=
  if n < 100 then [Nat.digitChar (n / 10), Nat.digitChar (n % 10)] else (Nat.repr n).data

/-- Character content of `Daytime.String`. -/
def dtChars (d : Nat) : List Char :=
  if !(Valid d) then "invalid".data
  else if d = 86400 then "24:00:00".data
  else pad2 (Clock d).1 ++ ':' :: (pad2 (Clock d).2.1 ++ ':' :: pad2 (Clock d).2.2)

/-- `Daytime.String` (named `dtString`: the name `String` is taken by the
Lean string type). -/
def dtString (d : Nat) : String := ⟨dtChars d⟩

/-- Modelled from the spec: `UnmarshalText` is exercised by the repository
tests but its implementation file is not under src/.  Per the spec it parses
with the two-strategy `Parse` and collapses every failure to a single
`InvalidFormat` error, leaving the receiver at `StartOfDay` (the Go zero
value) on failure; on success the receiver holds the parsed value, which the
success value models here. -/
def UnmarshalText (s : String) : Except DtError Nat :=
  match Parse s with
  | .ok d => .ok d
  | .error _ => .error ⟨"UnmarshalText", .InvalidFormat⟩

-- ## Bridge from the truncated division used by Go to floored division

theorem tmod_day_lower (t : Int) : -86400 < t.tmod 86400 := by
  cases t with
  | ofNat m =>
    have h0 : 0 ≤ Int.tmod (Int.ofNat m) 86400 :=
      Int.tmod_nonneg _ (by rw [Int.ofNat_eq_natCast]; exact Int.natCast_nonneg m)
    omega
  | negSucc m =>
    have h : Int.tmod (Int.negSucc m) 86400 = -Int.ofNat ((m + 1) % 86400) := rfl
    rw [Int.ofNat_eq_natCast] at h
    have h2 : (m + 1) % 86400 < 86400 := Nat.mod_lt _ (by norm_num)
    omega

/-- The sequence "truncated divmod, then add `86400` to a negative remainder
and decrement the day count" is floored divmod (`Int.ediv` / `Int.emod` for
the positive divisor `86400`). -/
theorem tmod_tdiv_norm (t : Int) :
    (if t.tmod 86400 < 0 then t.tdiv 86400 - 1 else t.tdiv 86400) = t / 86400 ∧
    (if t.tmod 86400 < 0 then t.tmod 86400 + 86400 else t.tmod 86400) = t % 86400 := by
  have hid := Int.tdiv_add_tmod t 86400
  have hlo := tmod_day_lower t
  have hhi : t.tmod 86400 < 86400 := Int.tmod_lt_of_pos t (by norm_num)
  by_cases hc : t.tmod 86400 < 0
  · have key := (Int.ediv_emod_unique (a := t) (b := 86400)
      (q := t.tdiv 86400 - 1) (r := t.tmod 86400 + 86400) (by norm_num)).mpr (by omega)
    rw [if_pos hc, if_pos hc]
    exact ⟨key.1.symm, key.2.symm⟩
  · have key := (Int.ediv_emod_unique (a := t) (b := 86400)
      (q := t.tdiv 86400) (r := t.tmod 86400) (by norm_num)).mpr (by omega)
    rw [if_neg hc, if_neg hc]
    exact ⟨key.1.symm, key.2.symm⟩

/-- Closed form of `Add` on valid input, in floored-division terms. -/
theorem Add_eq_of_valid (d : Nat) (s : Int) (h : d ≤ 86400) :
    Add d s = (if (d : Int) + s = 86400 then ((86400 : Nat), (0 : Int))
               else ((((d : Int) + s) % 86400).toNat, ((d : Int) + s) / 86400)) := by
  have hb := tmod_tdiv_norm ((d : Int) + s)
  have hv : (!(Valid d)) = false := by simp [Valid, h]
  by_cases hT : (d : Int) + s = 86400
  · simp [Add, hv, hT]
  · simp only [Add, hv, Bool.false_eq_true, if_false, if_neg hT, StartOfDay, EndOfDay]
    rw [hb.1, hb.2]
    by_cases hr : ((d : Int) + s) % 86400 = 0
    · simp [hr]
    · simp [hr]

/-- Closed form of `Mul` on valid input, in floored-division terms. -/
theorem Mul_eq_of_valid (d : Nat) (f : Int) (h : d ≤ 86400) :
    Mul d f = (if (d : Int) * f = 86400 then ((86400 : Nat), (0 : Int))
               else ((((d : Int) * f) % 86400).toNat, ((d : Int) * f) / 86400)) := by
  have hb := tmod_tdiv_norm ((d : Int) * f)
  have hv : (!(Valid d)) = false := by simp [Valid, h]
  by_cases hT : (d : Int) * f = 86400
  · simp [Mul, hv, hT]
  · simp only [Mul, hv, Bool.false_eq_true, if_false, if_neg hT, StartOfDay, EndOfDay]
    rw [hb.1, hb.2]
    by_cases hr : ((d : Int) * f) % 86400 = 0
    · simp [hr]
    · simp [hr]

/-- Closed form of `Diff` on valid inputs, in floored-division terms. -/
theorem Diff_eq_of_valid (d o : Nat) (hd : d ≤ 86400) (ho : o ≤ 86400) :
    Diff d o = (((d : Int) - o) % 86400, ((d : Int) - o) / 86400) := by
  have hb := tmod_tdiv_norm ((d : Int) - o)
  have hsub1 : (if d = 86400 ∧ d ≠ o then (86400 : Int) else (d : Int)) = (d : Int) := by
    split_ifs with hc
    · rw [hc.1]; norm_num
    · rfl
  have hsub2 : (if o = 86400 ∧ d ≠ o then (86400 : Int) else (o : Int)) = (o : Int) := by
    split_ifs with hc
    · rw [hc.1]; norm_num
    · rfl
  have hv : (!(Valid d) || !(Valid o)) = false := by simp [Valid, hd, ho]
  simp only [Diff, hv, Bool.false_eq_true, if_false, hsub1, hsub2]
  by_cases hc : ((d : Int) - o).tmod 86400 < 0
  · rw [if_pos hc]
    simp only [if_pos hc] at hb
    exact Prod.ext hb.2 hb.1
  · rw [if_neg hc]
    simp only [if_neg hc] at hb
    exact Prod.ext hb.2 hb.1

/-- Root cause observed on a result by `errors.Is`-style matching (the
wrapper unwraps to the sentinel). -/
def errRoot {α : Type} : Except DtError α → Option RootErr
  | .error e => some e.root
  | .ok _ => none

-- ## Shared comparison lemmas

/-- On valid operands `Before` agrees with the raw order. -/
theorem Before_eq_lt (a b : Nat) (ha : a ≤ 86400) (hb : b ≤ 86400) :
    Before a b = decide (a < b) := by
  unfold Before
  split_ifs with h1 h2
  · have h3 : ¬ (a < b) := by omega
    simp [h3]
  · have h3 : a < b := by omega
    simp [h3]
  · rfl

/-- The wraparound branch of `Between`: on a wrapping interval membership is
the two-sided raw test. -/
theorem Between_wrap_eq (d start stop : Nat) (hd : d ≤ 86400) (hs : start ≤ 86400)
    (ht : stop ≤ 86400) (ha : After start stop = true) :
    Between d start stop = (decide (start ≤ d) || decide (d ≤ stop)) := by
  have hlt : stop < start := by
    have h := Before_eq_lt stop start ht hs
    rw [After, h] at ha
    simpa using ha
  have hg : (!(Valid d) || !(Valid start) || !(Valid stop)) = false := by
    simp [Valid, hd, hs, ht]
  have hne : start ≠ stop := by omega
  have hbss : Before start stop = false := by
    rw [Before_eq_lt start stop hs ht]
    simp
    omega
  unfold Between
  simp only [hg, Bool.false_eq_true, if_false, if_neg hne, hbss]
  rw [After, Before_eq_lt d start hd hs, Before_eq_lt stop d ht hd]
  simp only [← decide_not, Nat.not_lt]

-- ## C1

/-- C1: on a valid daytime, `Add` returns `(EndOfDay, 0)` exactly when the
raw total equals `86400`; otherwise it returns the floored remainder (always
in `[0, 86399]`, hence `StartOfDay` when `0`) together with the floored
quotient as days crossed; an invalid receiver is returned unchanged with `0`
days. -/
theorem add_normalization (d : Nat) (s : Int) :
    (Valid d = false → Add d s = (d, 0)) ∧
    (Valid d = true → (d : Int) + s = 86400 → Add d s = (EndOfDay, 0)) ∧
    (Valid d = true → (d : Int) + s ≠ 86400 →
      0 ≤ (d : Int) + s - 86400 * (((d : Int) + s).fdiv 86400) ∧
      (d : Int) + s - 86400 * (((d : Int) + s).fdiv 86400) ≤ 86399 ∧
      Add d s = (((d : Int) + s - 86400 * (((d : Int) + s).fdiv 86400)).toNat,
                 ((d : Int) + s).fdiv 86400)) := by
  refine ⟨?_, ?_, ?_⟩
  · intro hv
    simp [Add, hv]
  · intro hv hT
    have h : d ≤ 86400 := by simpa [Valid] using hv
    rw [Add_eq_of_valid d s h, if_pos hT]
  · intro hv hT
    have h : d ≤ 86400 := by simpa [Valid] using hv
    have hf : ((d : Int) + s).fdiv 86400 = ((d : Int) + s) / 86400 :=
      Int.fdiv_eq_ediv _ (by norm_num)
    have hm : ((d : Int) + s) % 86400 = (d : Int) + s - 86400 * (((d : Int) + s) / 86400) :=
      Int.emod_def _ _
    rw [Add_eq_of_valid d s h, if_neg hT]
    refine ⟨?_, ?_, ?_⟩ <;> rw [hf, ← hm]
    · omega
    · omega

/-- C1 witness: `23:00:00 + 7200` crosses one day and lands on `01:00:00`. -/
theorem add_normalization_witness :
    Valid 82800 = true ∧ ((82800 : Nat) : Int) + 7200 ≠ 86400 ∧
    Add 82800 7200 = (3600, 1) := by
  refine ⟨by decide, by decide, ?_⟩
  have h := (add_normalization 82800 7200).2.2 (by decide) (by decide)
  exact h.2.2.trans (by decide)

-- ## C5

/-- C5 (counterexample): for the representable but invalid operand `86401`,
`Before 86400 86401` is `false` although the raw integer order says
`86400 < 86401`, so the `EndOfDay` override does change an outcome relative
to plain integer ordering. -/
theorem before_raw_order_cex :
    Before 86400 86401 = false ∧ decide (86400 < 86401) = true := by decide

/-- C5 (amended): restricted to valid operands, `Before` agrees with the raw
integer comparison. -/
theorem before_raw_order_amended (a b : Nat) (ha : a ≤ 86400) (hb : b ≤ 86400) :
    Before a b = decide (a < b) :=
  Before_eq_lt a b ha hb

/-- C5 witness. -/
theorem before_raw_order_amended_witness :
    86399 ≤ 86400 ∧ 86400 ≤ 86400 ∧ Before 86399 86400 = true := by
  refine ⟨by decide, by decide, ?_⟩
  exact (before_raw_order_amended 86399 86400 (by decide) (by decide)).trans (by decide)

-- ## C7

/-- C7: on an invalid receiver the defensive operations are inert: `Add` and
`Mul` return the receiver unchanged with `0` days, `Div` with a nonzero
divisor and `Mod` with a positive modulus succeed returning the receiver
unchanged, `Diff` with an invalid operand returns `(0, 0)`, `Between` with an
invalid argument in any position is `false`, and `String` renders the
literal "invalid". -/
theorem invalid_inert (d : Nat) (hd : Valid d = false) (s f k m : Int) (x y o : Nat) :
    Add d s = (d, 0) ∧ Mul d f = (d, 0) ∧
    (k ≠ 0 → Div d k = .ok (d, 0)) ∧
    (0 < m → Mod d m = .ok d) ∧
    Diff d o = (0, 0) ∧ Diff o d = (0, 0) ∧
    Between d x y = false ∧ Between x d y = false ∧ Between x y d = false ∧
    dtString d = "invalid" := by
  refine ⟨?_, ?_, ?_, ?_, ?_, ?_, ?_, ?_, ?_, ?_⟩
  · simp [Add, hd]
  · simp [Mul, hd]
  · intro hk
    simp [Div, hk, hd]
  · intro hm
    have h0 : ¬ (m ≤ 0) := by omega
    simp [Mod, h0, hd]
  · simp [Diff, hd]
  · simp [Diff, hd]
  · simp [Between, hd]
  · simp [Between, hd]
  · simp [Between, hd]
  · simp [dtString, dtChars, hd]

/-- C7 witness at the invalid value `86401`. -/
theorem invalid_inert_witness :
    Valid 86401 = false ∧ (-7 : Int) ≠ 0 ∧ (0 : Int) < 60 ∧
    Add 86401 5 = (86401, 0) ∧ Mul 86401 (-3) = (86401, 0) ∧
    Div 86401 (-7) = .ok (86401, 0) ∧ Mod 86401 60 = .ok 86401 ∧
    Diff 86401 3600 = (0, 0) ∧ Diff 3600 86401 = (0, 0) ∧
    Between 86401 0 43200 = false ∧ Between 0 86401 43200 = false ∧
    Between 0 43200 86401 = false ∧ dtString 86401 = "invalid" := by
  have h := invalid_inert 86401 (by decide) 5 (-3) (-7) 60 0 43200 3600
  exact ⟨by decide, by decide, by decide, h.1, h.2.1, h.2.2.1 (by decide),
    h.2.2.2.1 (by decide), h.2.2.2.2.1, h.2.2.2.2.2.1, h.2.2.2.2.2.2.1,
    h.2.2.2.2.2.2.2.1, h.2.2.2.2.2.2.2.2.1, h.2.2.2.2.2.2.2.2.2⟩

-- ## C10

/-- C10: a zero dividend divided by any negative divisor succeeds with
`(StartOfDay, 0)` and no error; conversely a `Div` failure under a nonzero
divisor only happens on a strictly positive dividend, so the quotient range
check rejects negative divisors only there. -/
theorem div_negative_divisor (k : Int) (hk : k < 0) :
    Div StartOfDay k = .ok (StartOfDay, 0) ∧
    (∀ (d : Nat) (j : Int) (e : DtError), Valid d = true → j ≠ 0 →
      Div d j = .error e → 0 < d) := by
  constructor
  · have hk0 : k ≠ 0 := by omega
    simp [Div, hk0, Valid, Int.zero_tdiv, Int.zero_tmod]
  · intro d j e hv hj hdiv
    rcases Nat.eq_zero_or_pos d with h0 | h0
    · subst h0
      simp [Div, hj, Valid, Int.zero_tdiv, Int.zero_tmod] at hdiv
    · exact h0

/-- C10 witness: `Div 0 (-5)` succeeds, `Div 43200 (-1)` fails out of range
on the strictly positive dividend `43200`. -/
theorem div_negative_divisor_witness :
    (-5 : Int) < 0 ∧ Div 0 (-5) = .ok (0, 0) ∧
    Valid 43200 = true ∧ (-1 : Int) ≠ 0 ∧
    Div 43200 (-1) = .error ⟨"Div", .ValueOutOfRange⟩ ∧ 0 < 43200 := by
  have h := div_negative_divisor (-5) (by decide)
  exact ⟨by decide, h.1, by decide, by decide, by decide,
    h.2 43200 (-1) ⟨"Div", .ValueOutOfRange⟩ (by decide) (by decide) (by decide)⟩

-- ## C4

/-- C4: on valid operands with `start` ordering after `end`, `Between` is the
inclusive wraparound test `start <= d or d <= end`; consequently the
degenerate wrap interval from `EndOfDay` to `StartOfDay` contains exactly
those two instants. -/
theorem between_wraparound :
    (∀ d start stop : Nat, d ≤ 86400 → start ≤ 86400 → stop ≤ 86400 →
      After start stop = true →
      Between d start stop = (decide (start ≤ d) || decide (d ≤ stop))) ∧
    (∀ d : Nat, d ≤ 86400 →
      (Between d EndOfDay StartOfDay = true ↔ d = StartOfDay ∨ d = EndOfDay)) := by
  constructor
  · intro d start stop hd hs ht ha
    exact Between_wrap_eq d start stop hd hs ht ha
  · intro d hd
    rw [Between_wrap_eq d 86400 0 hd (by omega) (by omega) (by decide)]
    simp only [StartOfDay, EndOfDay, Bool.or_eq_true, decide_eq_true_eq]
    omega

/-- C4 witness: the interval from `23:00:00` to `01:00:00` contains
`23:59:59`, and the degenerate `[24:00, 00:00]` interval excludes noon. -/
theorem between_wraparound_witness :
    After 82800 3600 = true ∧ Between 86399 82800 3600 = true ∧
    (Between 43200 86400 0 = true ↔ 43200 = StartOfDay ∨ 43200 = EndOfDay) := by
  refine ⟨by decide, ?_, (between_wraparound).2 43200 (by decide)⟩
  have h := (between_wraparound).1 86399 82800 3600 (by decide) (by decide)
    (by decide) (by decide)
  exact h.trans (by decide)

-- ## C6

/-- C6: `Diff` returns `(0, 0)` when either input is invalid, and on valid
inputs it is the floored divmod of the raw difference (the `EndOfDay`
substitutions change nothing because the raw sentinel value is already
`86400`), giving `EndOfDay.Diff StartOfDay = (0, 1)`,
`StartOfDay.Diff EndOfDay = (0, -1)`, and a seconds component always in
`[0, 86399]`. -/
theorem diff_spec :
    Diff EndOfDay StartOfDay = (0, 1) ∧
    Diff StartOfDay EndOfDay = (0, -1) ∧
    (∀ d o : Nat, (Valid d && Valid o) = false → Diff d o = (0, 0)) ∧
    (∀ d o : Nat, Valid d = true → Valid o = true →
      Diff d o = (((d : Int) - o) % 86400, ((d : Int) - o) / 86400) ∧
      0 ≤ (Diff d o).1 ∧ (Diff d o).1 ≤ 86399) := by
  refine ⟨by decide, by decide, ?_, ?_⟩
  · intro d o h
    cases hvd : Valid d <;> cases hvo : Valid o <;> simp_all [Diff]
  · intro d o hd ho
    have hd2 : d ≤ 86400 := by simpa [Valid] using hd
    have ho2 : o ≤ 86400 := by simpa [Valid] using ho
    rw [Diff_eq_of_valid d o hd2 ho2]
    refine ⟨rfl, ?_, ?_⟩
    · simp
      omega
    · simp
      omega

/-- C6 witness. -/
theorem diff_spec_witness :
    (Valid 86401 && Valid 0) = false ∧ Diff 86401 0 = (0, 0) ∧
    Valid 86400 = true ∧ Valid 82800 = true ∧ Diff 86400 82800 = (3600, 0) := by
  refine ⟨by decide, (diff_spec).2.2.1 86401 0 (by decide), by decide, by decide, ?_⟩
  have h := ((diff_spec).2.2.2 86400 82800 (by decide) (by decide)).1
  exact h.trans (by decide)

-- ## C3

/-- C3 (counterexample): `Parse` discards the root cause produced by the
inner time-string parser, so matching on the error of `Parse "25:00:00"`
observes `InvalidFormat`, not `InvalidTimeComponent`, and on
`Parse "24:00:01"` observes `InvalidFormat`, not `EndOfDayExceeded`. -/
theorem parse_root_cause_cex :
    errRoot (Parse "25:00:00") = some RootErr.InvalidFormat ∧
    errRoot (Parse "25:00:00") ≠ some RootErr.InvalidTimeComponent ∧
    errRoot (Parse "24:00:01") = some RootErr.InvalidFormat ∧
    errRoot (Parse "24:00:01") ≠ some RootErr.EndOfDayExceeded := by decide

/-- C3 (amended): the specific root causes are produced by the inner
`parseTimeString` (range violation gives `InvalidTimeComponent`, a `24:xx:xx`
misuse gives `EndOfDayExceeded`), but `Parse` itself collapses every failure
to a single `InvalidFormat` error. -/
theorem parse_error_collapse :
    parseTimeString "25:00:00".data = .error ⟨"parseTimeString", .InvalidTimeComponent⟩ ∧
    parseTimeString "24:00:01".data = .error ⟨"parseTimeString", .EndOfDayExceeded⟩ ∧
    (∀ (s : String) (e : DtError), Parse s = .error e → e = ⟨"Parse", .InvalidFormat⟩) := by
  refine ⟨by decide, by decide, ?_⟩
  intro s e h
  unfold Parse at h
  split_ifs at h with h0
  · simp only [Except.error.injEq] at h
    exact h.symm
  · cases hps : parseSeconds s.data with
    | ok v =>
      rw [hps] at h
      simp at h
    | error e1 =>
      rw [hps] at h
      cases hpt : parseTimeString s.data with
      | ok v =>
        rw [hpt] at h
        simp at h
      | error e2 =>
        rw [hpt] at h
        simp only [Except.error.injEq] at h
        exact h.symm

/-- C3 witness. -/
theorem parse_error_collapse_witness :
    Parse "25:00:00" = .error ⟨"Parse", .InvalidFormat⟩ ∧
    (⟨"Parse", .InvalidFormat⟩ : DtError) = ⟨"Parse", .InvalidFormat⟩ := by
  refine ⟨by decide, ?_⟩
  exact (parse_error_collapse).2.2 "25:00:00" ⟨"Parse", .InvalidFormat⟩ (by decide)

-- ## C2

/-- C2 (counterexample): starting at `StartOfDay`, adding `-1` and then
adding `1` back lands on `EndOfDay`, not on `StartOfDay`, and the two
days-crossed counts sum to `-1`, so the add/sub round trip law fails. -/
theorem add_roundtrip_cex :
    Valid StartOfDay = true ∧
    Add StartOfDay (-1) = (86399, -1) ∧
    Add 86399 1 = (EndOfDay, 0) ∧
    (Add (Add StartOfDay (-1)).1 (-(-1))).1 ≠ StartOfDay ∧
    (Add StartOfDay (-1)).2 + (Add (Add StartOfDay (-1)).1 (-(-1))).2 ≠ 0 := by decide

/-- C2 (amended): the round trip `Add d s` then `Add` of `-s` restores `d`
with days-crossed counts summing to zero for every valid `d` and integer
`s`, except in the two boundary families the exact-86400 rule creates:
`d = StartOfDay` with `-86400 <= s <= -1` (the return step lands on
`EndOfDay`), and `d = EndOfDay` with `s` outside `[-86400, 0]` (the outward
step normalizes the sentinel away). -/
theorem add_roundtrip_amended (d : Nat) (s : Int) (hv : d ≤ 86400)
    (hx : ¬ (d = 0 ∧ -86400 ≤ s ∧ s ≤ -1))
    (hy : ¬ (d = 86400 ∧ ¬ (-86400 ≤ s ∧ s ≤ 0))) :
    (Add (Add d s).1 (-s)).1 = d ∧ (Add d s).2 + (Add (Add d s).1 (-s)).2 = 0 := by
  rw [Add_eq_of_valid d s hv]
  by_cases hT : (d : Int) + s = 86400
  · rw [if_pos hT]
    rw [Add_eq_of_valid 86400 (-s) (by omega)]
    by_cases hT2 : ((86400 : Nat) : Int) + (-s) = 86400
    · rw [if_pos hT2]
      refine ⟨?_, ?_⟩ <;> simp <;> omega
    · rw [if_neg hT2]
      refine ⟨?_, ?_⟩ <;> simp <;> omega
  · rw [if_neg hT]
    have hr : (((d : Int) + s) % 86400).toNat ≤ 86400 := by omega
    rw [Add_eq_of_valid _ (-s) hr]
    by_cases hT2 : (((((d : Int) + s) % 86400).toNat : Nat) : Int) + (-s) = 86400
    · rw [if_pos hT2]
      refine ⟨?_, ?_⟩ <;> simp <;> omega
    · rw [if_neg hT2]
      refine ⟨?_, ?_⟩ <;> simp <;> omega

/-- C2 witness: the round trip holds at `23:00:00` with `7200` seconds. -/
theorem add_roundtrip_amended_witness :
    82800 ≤ 86400 ∧
    ¬ ((82800 : Nat) = 0 ∧ -86400 ≤ (7200 : Int) ∧ (7200 : Int) ≤ -1) ∧
    ¬ ((82800 : Nat) = 86400 ∧ ¬ (-86400 ≤ (7200 : Int) ∧ (7200 : Int) ≤ 0)) ∧
    (Add (Add 82800 7200).1 (-7200)).1 = 82800 ∧
    (Add 82800 7200).2 + (Add (Add 82800 7200).1 (-7200)).2 = 0 := by
  have h := add_roundtrip_amended 82800 7200 (by decide) (by decide) (by decide)
  exact ⟨by decide, by decide, by decide, h.1, h.2⟩

-- ## C8

/-- C8 (counterexample): the scanner behind the colon format skips leading
spaces per field and ignores input left after the third field, so the
8-character loose forms " 1:02:03" and "1:2:3   " are parsed to `01:02:03`
(3723 seconds) instead of being rejected with `InvalidFormat`. -/
theorem parse_loose_form_cex :
    Parse " 1:02:03" = .ok 3723 ∧ Parse "1:2:3   " = .ok 3723 ∧
    errRoot (Parse " 1:02:03") ≠ some RootErr.InvalidFormat := by decide

/-- C8 (amended): the colon parser gates only on the total length being
exactly 8 bytes (anything else is `InvalidFormat`, e.g. "1:2:3"); within 8
characters the scan is lenient, accepting leading spaces, variable-width
fields and trailing characters, as " 1:02:03" and "1:2:3   " show. -/
theorem parse_length_gate (cs : List Char) (h : utf8Len cs ≠ 8) :
    parseTimeString cs = .error ⟨"parseTimeString", .InvalidFormat⟩ ∧
    Parse "1:2:3" = .error ⟨"Parse", .InvalidFormat⟩ ∧
    Parse " 1:02:03" = .ok 3723 ∧ Parse "1:2:3   " = .ok 3723 := by
  refine ⟨?_, by decide, by decide, by decide⟩
  simp [parseTimeString, h]

/-- C8 witness. -/
theorem parse_length_gate_witness :
    utf8Len "1:2:3".data ≠ 8 ∧
    parseTimeString "1:2:3".data = .error ⟨"parseTimeString", .InvalidFormat⟩ :=
  ⟨by decide, (parse_length_gate "1:2:3".data (by decide)).1⟩

-- ## C9: round trip of the canonical text form

theorem digitChar_facts (k : Nat) (h : k < 10) :
    (Nat.digitChar k).isDigit = true ∧ (Nat.digitChar k).toNat = 48 + k ∧
    Nat.digitChar k ≠ '-' ∧ Nat.digitChar k ≠ '+' ∧ Nat.digitChar k ≠ ' ' ∧
    Nat.digitChar k ≠ '\t' ∧ (Nat.digitChar k).utf8Size = 1 := by
  interval_cases k <;> decide

theorem skipSpaces_of_head (c : Char) (cs : List Char) (h1 : c ≠ ' ') (h2 : c ≠ '\t') :
    skipSpaces (c :: cs) = c :: cs := by
  simp [skipSpaces, h1, h2]

theorem takeDigits_two (a b : Nat) (ha : a < 10) (hb : b < 10) (rest : List Char)
    (hrest : rest = [] ∨ ∃ c2 cs2, rest = c2 :: cs2 ∧ c2.isDigit = false) :
    takeDigits 0 (Nat.digitChar a :: Nat.digitChar b :: rest) = (10 * a + b, rest) := by
  obtain ⟨hd1, ht1, -, -, -, -, -⟩ := digitChar_facts a ha
  obtain ⟨hd2, ht2, -, -, -, -, -⟩ := digitChar_facts b hb
  rcases hrest with h0 | ⟨c2, cs2, hc, hcd⟩
  · subst h0
    simp only [takeDigits, hd1, ht1, hd2, ht2, if_true]
    have e : (0 * 10 + (48 + a - 48)) * 10 + (48 + b - 48) = 10 * a + b := by omega
    rw [e]
  · subst hc
    simp only [takeDigits, hd1, ht1, hd2, ht2, hcd, if_true, Bool.false_eq_true, if_false]
    have e : (0 * 10 + (48 + a - 48)) * 10 + (48 + b - 48) = 10 * a + b := by omega
    rw [e]

theorem scanInt_two (a b : Nat) (ha : a < 10) (hb : b < 10) (rest : List Char)
    (hrest : rest = [] ∨ ∃ c2 cs2, rest = c2 :: cs2 ∧ c2.isDigit = false) :
    scanInt (Nat.digitChar a :: Nat.digitChar b :: rest)
      = some (((10 * a + b : Nat) : Int), rest) := by
  obtain ⟨hd1, -, hm1, hp1, hs1, hw1, -⟩ := digitChar_facts a ha
  unfold scanInt
  rw [skipSpaces_of_head _ _ hs1 hw1]
  simp [hm1, hp1, hd1, takeDigits_two a b ha hb rest hrest]

theorem expectChar_cons (c : Char) (rest : List Char) :
    expectChar c (c :: rest) = some rest := by
  simp [expectChar]

theorem scanHMS_printed (h m s : Nat) (hh : h < 100) (hm2 : m < 100) (hs2 : s < 100) :
    scanHMS ([Nat.digitChar (h / 10), Nat.digitChar (h % 10)] ++ ':' ::
        ([Nat.digitChar (m / 10), Nat.digitChar (m % 10)] ++ ':' ::
          [Nat.digitChar (s / 10), Nat.digitChar (s % 10)]))
      = some ((h : Int), (m : Int), (s : Int)) := by
  have hcol : (':' : Char).isDigit = false := by decide
  have e1 := scanInt_two (h / 10) (h % 10) (by omega) (by omega)
    (':' :: ([Nat.digitChar (m / 10), Nat.digitChar (m % 10)] ++ ':' ::
      [Nat.digitChar (s / 10), Nat.digitChar (s % 10)]))
    (Or.inr ⟨':', _, rfl, hcol⟩)
  have e2 := scanInt_two (m / 10) (m % 10) (by omega) (by omega)
    (':' :: [Nat.digitChar (s / 10), Nat.digitChar (s % 10)])
    (Or.inr ⟨':', _, rfl, hcol⟩)
  have e3 := scanInt_two (s / 10) (s % 10) (by omega) (by omega) [] (Or.inl rfl)
  have hdm1 : 10 * (h / 10) + h % 10 = h := Nat.div_add_mod h 10
  have hdm2 : 10 * (m / 10) + m % 10 = m := Nat.div_add_mod m 10
  have hdm3 : 10 * (s / 10) + s % 10 = s := Nat.div_add_mod s 10
  rw [hdm1] at e1
  rw [hdm2] at e2
  rw [hdm3] at e3
  simp only [List.cons_append, List.nil_append] at e1 e2 e3 ⊢
  simp [scanHMS, e1, e2, e3, expectChar_cons]

theorem atoi_printed (a b : Nat) (ha : a < 10) (hb : b < 10) (rest : List Char) :
    atoi (Nat.digitChar a :: Nat.digitChar b :: ':' :: rest) = none := by
  obtain ⟨hd1, -, hm1, hp1, -, -, -⟩ := digitChar_facts a ha
  obtain ⟨hd2, -, -, -, -, -, -⟩ := digitChar_facts b hb
  have hcol : (':' : Char).isDigit = false := by decide
  simp [atoi, atoiDigits, hm1, hp1, hd1, hd2, hcol]

theorem pad2_digits (n : Nat) (h : n < 100) :
    pad2 n = [Nat.digitChar (n / 10), Nat.digitChar (n % 10)] := by
  simp [pad2, h]

/-- Canonical character form of a valid in-day value. -/
theorem dtChars_printed (d : Nat) (h : d < 86400) :
    dtChars d = pad2 (d / 3600) ++ ':' :: (pad2 (d % 3600 / 60) ++ ':' :: pad2 (d % 60)) := by
  have hvd : (!(Valid d)) = false := by simp [Valid]; omega
  have hne : d ≠ 86400 := by omega
  simp [dtChars, hvd, hne, Clock]

theorem parseSeconds_printed (d : Nat) (h : d < 86400) :
    parseSeconds (dtChars d) = .error ⟨"parseSeconds", .InvalidFormat⟩ := by
  rw [dtChars_printed d h, pad2_digits _ (by omega)]
  simp only [List.cons_append, List.nil_append]
  simp [parseSeconds, atoi_printed (d / 3600 / 10) (d / 3600 % 10) (by omega) (by omega)]

theorem parseTimeString_printed (d : Nat) (h : d < 86400) :
    parseTimeString (dtChars d) = .ok ((d : Int)) := by
  rw [dtChars_printed d h, pad2_digits (d / 3600) (by omega),
    pad2_digits (d % 3600 / 60) (by omega), pad2_digits (d % 60) (by omega)]
  have hlen : utf8Len ([Nat.digitChar (d / 3600 / 10), Nat.digitChar (d / 3600 % 10)] ++ ':' ::
      ([Nat.digitChar (d % 3600 / 60 / 10), Nat.digitChar (d % 3600 / 60 % 10)] ++ ':' ::
        [Nat.digitChar (d % 60 / 10), Nat.digitChar (d % 60 % 10)])) = 8 := by
    have hcs : (':' : Char).utf8Size = 1 := by decide
    simp [utf8Len, hcs, (digitChar_facts (d / 3600 / 10) (by omega)).2.2.2.2.2.2,
      (digitChar_facts (d / 3600 % 10) (by omega)).2.2.2.2.2.2,
      (digitChar_facts (d % 3600 / 60 / 10) (by omega)).2.2.2.2.2.2,
      (digitChar_facts (d % 3600 / 60 % 10) (by omega)).2.2.2.2.2.2,
      (digitChar_facts (d % 60 / 10) (by omega)).2.2.2.2.2.2,
      (digitChar_facts (d % 60 % 10) (by omega)).2.2.2.2.2.2]
  have hscan := scanHMS_printed (d / 3600) (d % 3600 / 60) (d % 60)
    (by omega) (by omega) (by omega)
  have hc1 : ¬ (((d / 3600 : Nat) : Int) < 0 ∨ ((d / 3600 : Nat) : Int) > 24 ∨
      ((d % 3600 / 60 : Nat) : Int) < 0 ∨ ((d % 3600 / 60 : Nat) : Int) > 59 ∨
      ((d % 60 : Nat) : Int) < 0 ∨ ((d % 60 : Nat) : Int) > 59) := by
    push_cast
    omega
  have hc2 : ¬ (((d / 3600 : Nat) : Int) = 24 ∧
      (((d % 3600 / 60 : Nat) : Int) ≠ 0 ∨ ((d % 60 : Nat) : Int) ≠ 0)) := by
    push_cast
    omega
  have hc3 : ¬ (((d / 3600 : Nat) : Int) * 3600 + ((d % 3600 / 60 : Nat) : Int) * 60 +
      ((d % 60 : Nat) : Int) > 86400) := by
    push_cast
    omega
  have htot : ((d / 3600 : Nat) : Int) * 3600 + ((d % 3600 / 60 : Nat) : Int) * 60 +
      ((d % 60 : Nat) : Int) = (d : Int) := by
    push_cast
    omega
  simp only [List.cons_append, List.nil_append] at hlen hscan ⊢
  simp only [parseTimeString, hlen, ne_eq, hscan, if_neg hc1, if_neg hc2, if_neg hc3,
    not_true, if_false]
  congr 1

/-- C9: for every valid daytime, the canonical text produced by `String`
round-trips through `UnmarshalText` back to exactly the same value. -/
theorem string_roundtrip (d : Nat) (hv : Valid d = true) :
    UnmarshalText (dtString d) = .ok d := by
  have hd : d ≤ 86400 := by simpa [Valid] using hv
  by_cases h86 : d = 86400
  · subst h86
    decide
  · have hlt : d < 86400 := by omega
    have hps := parseSeconds_printed d hlt
    have hpt := parseTimeString_printed d hlt
    have hne : dtString d ≠ "" := by
      intro hcontra
      have h2 : (dtString d).data = ("" : String).data := congrArg String.data hcontra
      have h3 : ("" : String).data = [] := rfl
      have h4 : (dtString d).data = dtChars d := rfl
      rw [h3, h4, dtChars_printed d hlt, pad2_digits (d / 3600) (by omega)] at h2
      simp at h2
    have hparse : Parse (dtString d) = .ok d := by
      unfold Parse
      rw [if_neg hne]
      have hdata : (dtString d).data = dtChars d := rfl
      rw [hdata, hps, hpt]
      simp
    simp [UnmarshalText, hparse]

/-- C9 witness: `12:30:15` (45015 seconds). -/
theorem string_roundtrip_witness :
    Valid 45015 = true ∧ dtString 45015 = "12:30:15" ∧
    UnmarshalText (dtString 45015) = .ok 45015 :=
  ⟨by decide, by decide, string_roundtrip 45015 (by decide)⟩

end Daytime
